import Mathlib

/-!
Shallow embedding of the insight allocation-tracing layer
(src/insight/src/lib.rs) and verification of its specification.

Modelling conventions:
* `std::alloc::Layout` becomes a `size`/`align` pair of naturals.
* Raw captured addresses (`Option<*mut c_void>`, the result of
  `backtrace::Symbol::addr()`) become `Option Nat`.
* The `bitflags` set `AllocFlags` becomes a structure of three `Bool`s,
  one per declared bit; `insert`/`remove`/`contains` mirror the bitflags
  operations (bitwise or / and-not / subset test).
* The global mutable state (`ALLOC_LOG`, `ALLOC_INITIALIZING`) and the
  calling thread's thread-local `ALLOC_MODE` cell are gathered in an
  explicit `AllocState` record that every operation threads through.
* A Rust panic becomes `Except.error` carrying the panic message; the
  state returned alongside is the state after unwinding (drop glue of
  scope guards runs during unwind, so guard bits are released there too).
* The external `backtrace` crate is modelled by parameters: the stack
  walk is a list of frames in the order `backtrace::trace` yields them,
  each frame being the list of `Symbol::addr()` values that
  `backtrace::resolve` reports at that frame's instruction pointer; the
  dump-time symbolication is a function from an address to the list of
  `Symbol::name()` results reported there.
* The underlying allocator (`self.inner`) is a parameter function;
  pointers are naturals.
-/

namespace Insight

/-- std::alloc::Layout: byte size and required alignment of one request. -/
structure Layout where
  size : Nat
  align : Nat
deriving DecidableEq

/-- A captured raw address: Symbol::addr() is an optional raw pointer. -/
abbrev Addr := Option Nat

/-- enum AllocLog (lib.rs lines 18-23). -/
inductive AllocLog where
  | Alloc : Layout → AllocLog
  | Test : Layout → List Addr → AllocLog
  | Empty : AllocLog
deriving DecidableEq

/-- bitflags AllocFlags (lib.rs lines 30-36): three bits of a u32,
modelled one boolean per declared bit. -/
structure AllocFlags where
  logDisabled : Bool
  logEnabled : Bool
  forbidBit : Bool
deriving DecidableEq

/-- The LOG_DISABLED constant of the bitflags declaration. -/
def AllocFlags.LOG_DISABLED : AllocFlags := ⟨true, false, false⟩

/-- The LOG_ENABLED constant of the bitflags declaration. -/
def AllocFlags.LOG_ENABLED : AllocFlags := ⟨false, true, false⟩

/-- The FORBID constant of the bitflags declaration. -/
def AllocFlags.FORBID : AllocFlags := ⟨false, false, true⟩

/-- bitflags insert: bitwise or of the two flag sets. -/
def AllocFlags.insert (f g : AllocFlags) : AllocFlags :=
  ⟨f.logDisabled || g.logDisabled, f.logEnabled || g.logEnabled,
    f.forbidBit || g.forbidBit⟩

/-- bitflags remove: clear in `f` every bit set in `g` (bitwise and-not). -/
def AllocFlags.remove (f g : AllocFlags) : AllocFlags :=
  ⟨f.logDisabled && !g.logDisabled, f.logEnabled && !g.logEnabled,
    f.forbidBit && !g.forbidBit⟩

/-- bitflags contains: every bit set in `g` is set in `f`. -/
def AllocFlags.contains (f g : AllocFlags) : Bool :=
  (!g.logDisabled || f.logDisabled) && (!g.logEnabled || f.logEnabled) &&
    (!g.forbidBit || f.forbidBit)

/-- One of the three declared mode bits, for stating per-bit properties. -/
inductive ModeBit where
  | disabled : ModeBit
  | enabled : ModeBit
  | forbidden : ModeBit
deriving DecidableEq

/-- The singleton flag set of one mode bit. -/
def bitFlag : ModeBit → AllocFlags
  | ModeBit.disabled => AllocFlags.LOG_DISABLED
  | ModeBit.enabled => AllocFlags.LOG_ENABLED
  | ModeBit.forbidden => AllocFlags.FORBID

/-- Whether a flag set holds a given mode bit. -/
def AllocFlags.hasBit (f : AllocFlags) : ModeBit → Bool
  | ModeBit.disabled => f.logDisabled
  | ModeBit.enabled => f.logEnabled
  | ModeBit.forbidden => f.forbidBit

/-- const ALLOC_LOG_SIZE (lib.rs line 39). -/
def ALLOC_LOG_SIZE : Nat := 4096

/-- The mutable globals of lib.rs lines 41-44, as seen by one thread:
the process-wide event queue (an ArrayQueue modelled as a list, head =
oldest), the initialization-in-progress flag, and the calling thread's
thread-local mode cell. -/
structure AllocState where
  ALLOC_LOG : Option (List AllocLog)
  ALLOC_INITIALIZING : Bool
  ALLOC_MODE : AllocFlags
deriving DecidableEq

/-- struct Guard (lib.rs line 62): remembers the flag bits it inserted. -/
structure Guard where
  val : AllocFlags
deriving DecidableEq

/-- Guard::new (lib.rs lines 64-73): union the requested bits into the
thread's mode cell; return the guard and the updated cell contents. -/
def Guard.new (newmode : AllocFlags) (mode : AllocFlags) : Guard × AllocFlags :=
  (⟨newmode⟩, mode.insert newmode)

/-- Drop for Guard (lib.rs lines 76-85): remove exactly the remembered
bits from the current cell contents (non-counting removal). -/
def Guard.drop (g : Guard) (mode : AllocFlags) : AllocFlags :=
  mode.remove g.val

/-- The scope-helper pattern of no_log / forbid (lib.rs lines 46-60): a
guard is constructed, the body runs with the updated thread flags and may
itself update them and end in a panic, and the guard's drop glue runs on
every exit path, unwinding included. The body returns its result (or
panic) together with the thread flags at its exit. -/
def runScoped (b : AllocFlags) (body : AllocFlags → Except String α × AllocFlags)
    (mode : AllocFlags) : Except String α × AllocFlags :=
  let g := Guard.new b mode
  let r := body g.2
  (r.1, Guard.drop g.1 r.2)

/-- no_log (lib.rs lines 46-52): run the body under LOG_DISABLED. -/
def no_log (body : AllocFlags → Except String α × AllocFlags)
    (mode : AllocFlags) : Except String α × AllocFlags :=
  runScoped AllocFlags.LOG_DISABLED body mode

/-- forbid (lib.rs lines 54-60): run the body under FORBID. -/
def forbid (body : AllocFlags → Except String α × AllocFlags)
    (mode : AllocFlags) : Except String α × AllocFlags :=
  runScoped AllocFlags.FORBID body mode

/-- add_log_entry (lib.rs lines 87-90): unwrap the queue option, then
ArrayQueue::push followed by unwrap — pushing to a full queue panics and
leaves the queue untouched (push hands the rejected value back). -/
def add_log_entry (entry : AllocLog) (log : Option (List AllocLog)) :
    Except String (List AllocLog) :=
  match log with
  | none => Except.error "called Option::unwrap on a None value"
  | some q =>
    if q.length < ALLOC_LOG_SIZE then Except.ok (q ++ [entry])
    else Except.error "called Result::unwrap on an Err value"

/-- GlobalAlloc::alloc for AllocImpl (lib.rs lines 129-163).
`inner` is the underlying allocator, `frames` the stack walk the
backtrace crate would deliver at this call site (per frame, the addr()
of each symbol resolve reports there). Returns the result (pointer or
panic) and the state after the call, drop glue included. -/
def alloc (inner : Layout → Nat) (frames : List (List Addr)) (layout : Layout)
    (st : AllocState) : Except String Nat × AllocState :=
  -- lazy one-time queue construction, lines 130-136
  let st1 :=
    if st.ALLOC_LOG = none ∧ st.ALLOC_INITIALIZING = false then
      { st with ALLOC_INITIALIZING := true, ALLOC_LOG := some [] }
    else st
  -- no_log guard wrapped around the recording body, line 139
  let g := Guard.new AllocFlags.LOG_DISABLED st1.ALLOC_MODE
  -- mode.get() at line 140 happens inside the guard scope
  let m := g.2
  if m.contains AllocFlags.FORBID then
    -- line 142: panic before inner.alloc is ever reached
    (Except.error "Allocation performed when forbidden",
      { st1 with ALLOC_MODE := Guard.drop g.1 g.2 })
  else if m.contains AllocFlags.LOG_ENABLED then
    -- lines 147-157: walk the stack in the order the crate yields
    -- frames, collecting each frame's resolved symbol addresses
    match add_log_entry (AllocLog.Test layout frames.flatten) st1.ALLOC_LOG with
    | Except.ok q =>
      (Except.ok (inner layout),
        { st1 with ALLOC_LOG := some q, ALLOC_MODE := Guard.drop g.1 g.2 })
    | Except.error e =>
      (Except.error e, { st1 with ALLOC_MODE := Guard.drop g.1 g.2 })
  else
    (Except.ok (inner layout), { st1 with ALLOC_MODE := Guard.drop g.1 g.2 })

/-- GlobalAlloc::realloc for AllocImpl (lib.rs lines 165-168): pure
delegation to the underlying allocator. -/
def realloc (innerRealloc : Nat → Layout → Nat → Nat) (ptr : Nat)
    (layout : Layout) (new_size : Nat) (st : AllocState) : Nat × AllocState :=
  (innerRealloc ptr layout new_size, st)

/-- GlobalAlloc::dealloc for AllocImpl (lib.rs lines 170-173): pure
delegation to the underlying allocator. -/
def dealloc (innerDealloc : Nat → Layout → Unit) (ptr : Nat)
    (layout : Layout) (st : AllocState) : Unit × AllocState :=
  (innerDealloc ptr layout, st)

/-- Substring test used by the dump filter (str::contains on a &str
pattern: the pattern occurs contiguously inside the string). -/
def strContains (s pat : String) : Bool :=
  decide (pat.data <:+: s.data)

/-- Lines 100-112 of dump_alloc: for one Test event's address list,
collect the resolved symbol names that survive the three-substring
filter. Null addresses are skipped; `resolve a` lists the Symbol::name()
results the backtrace crate reports at address `a` (empty when the
address does not resolve), and nameless symbols are skipped. -/
def symbolNames (resolve : Nat → List (Option String)) (bt : List Addr) :
    List String :=
  bt.flatMap fun addr =>
    match addr with
    | none => []
    | some a =>
      (resolve a).flatMap fun nm =>
        match nm with
        | none => []
        | some s =>
          if !strContains s "backtrace" && !strContains s "GlobalAlloc" &&
              !strContains s "insight" then [s] else []

/-- Lines 98-116 of dump_alloc: the output lines one popped entry
produces — one (layout, filtered names) line for a Test event, nothing
for Alloc or Empty. -/
def dumpEntry (resolve : Nat → List (Option String)) (entry : AllocLog) :
    List (Layout × List String) :=
  match entry with
  | AllocLog.Test layout bt => [(layout, symbolNames resolve bt)]
  | _ => []

/-- The pop-until-empty loop of dump_alloc (lines 95-120): with the dump
as sole consumer, pop on a non-empty ArrayQueue always succeeds, so the
Err-panic arm of the match is unreachable and the loop processes the
queue front to back. -/
def dumpLoop (resolve : Nat → List (Option String)) :
    List AllocLog → List (Layout × List String)
  | [] => []
  | entry :: rest => dumpEntry resolve entry ++ dumpLoop resolve rest

/-- dump_alloc (lib.rs lines 92-122): under a no_log guard, unwrap the
queue option (panicking when the queue was never constructed) and drain
it, returning the emitted lines and the final state. -/
def dump_alloc (resolve : Nat → List (Option String)) (st : AllocState) :
    Except String (List (Layout × List String)) × AllocState :=
  let g := Guard.new AllocFlags.LOG_DISABLED st.ALLOC_MODE
  match st.ALLOC_LOG with
  | none =>
    (Except.error "called Option::unwrap on a None value",
      { st with ALLOC_MODE := Guard.drop g.1 g.2 })
  | some q =>
    (Except.ok (dumpLoop resolve q),
      { st with ALLOC_LOG := some [], ALLOC_MODE := Guard.drop g.1 g.2 })

/-- A producer pushing a sequence of events through add_log_entry, in
order, onto a constructed queue. -/
def pushAll : List AllocLog → List AllocLog → Except String (List AllocLog)
  | [], q => Except.ok q
  | e :: rest, q =>
    match add_log_entry e (some q) with
    | Except.ok q1 => pushAll rest q1
    | Except.error msg => Except.error msg

/-- Inserting LOG_DISABLED into a flag set never changes whether FORBID
or LOG_ENABLED is contained. -/
theorem contains_insert_disabled (F : AllocFlags) :
    ((F.insert AllocFlags.LOG_DISABLED).contains AllocFlags.FORBID
        = F.contains AllocFlags.FORBID) ∧
      ((F.insert AllocFlags.LOG_DISABLED).contains AllocFlags.LOG_ENABLED
        = F.contains AllocFlags.LOG_ENABLED) := by
  rcases F with ⟨a, b, c⟩
  cases a <;> cases b <;> cases c <;> simp [AllocFlags.insert,
    AllocFlags.contains, AllocFlags.LOG_DISABLED, AllocFlags.FORBID,
    AllocFlags.LOG_ENABLED]

/-- C2: if the calling thread's flags contain FORBID, alloc fails with
exactly the diagnostic "Allocation performed when forbidden", and the
whole call is independent of the underlying allocator and of the stack
walk — in particular inner.alloc is never consulted. -/
theorem c2_forbidden_fatal (inner1 inner2 : Layout → Nat)
    (frames1 frames2 : List (List Addr)) (layout : Layout) (st : AllocState)
    (h : st.ALLOC_MODE.contains AllocFlags.FORBID = true) :
    (alloc inner1 frames1 layout st).1 =
        Except.error "Allocation performed when forbidden" ∧
      alloc inner1 frames1 layout st = alloc inner2 frames2 layout st := by
  rcases st with ⟨log, ini, F⟩
  have hc : F.forbidBit = true := by
    rcases F with ⟨a, b, c⟩
    cases c
    · simp [AllocFlags.contains, AllocFlags.FORBID] at h
    · rfl
  by_cases hinit : log = none ∧ ini = false
  all_goals constructor <;>
    simp [alloc, hinit, Guard.new, Guard.drop, AllocFlags.insert,
      AllocFlags.remove, AllocFlags.contains, AllocFlags.FORBID,
      AllocFlags.LOG_DISABLED, AllocFlags.LOG_ENABLED, hc]

/-- C2 witness: a concrete forbidden-flag state. -/
theorem c2_forbidden_fatal_witness :
    (alloc (fun _ => 0) [] ⟨8, 8⟩ ⟨some [], true, ⟨false, false, true⟩⟩).1 =
        Except.error "Allocation performed when forbidden" ∧
      alloc (fun _ => 0) [] ⟨8, 8⟩ ⟨some [], true, ⟨false, false, true⟩⟩ =
        alloc (fun _ => 7) [[some 1]] ⟨8, 8⟩ ⟨some [], true, ⟨false, false, true⟩⟩ :=
  c2_forbidden_fatal (fun _ => 0) (fun _ => 7) [] [[some 1]] ⟨8, 8⟩
    ⟨some [], true, ⟨false, false, true⟩⟩ rfl

/-- C10: the forbidden check fires even when the suppressed-recording
bit LOG_DISABLED is also set on the thread — suppressing recording never
suppresses the forbidden-allocation fatal error. -/
theorem c10_forbid_wins_over_disabled (inner : Layout → Nat)
    (frames : List (List Addr)) (layout : Layout) (st : AllocState)
    (hd : st.ALLOC_MODE.contains AllocFlags.LOG_DISABLED = true)
    (hf : st.ALLOC_MODE.contains AllocFlags.FORBID = true) :
    (alloc inner frames layout st).1 =
      Except.error "Allocation performed when forbidden" := by
  rcases st with ⟨log, ini, F⟩
  have hc : F.forbidBit = true := by
    rcases F with ⟨a, b, c⟩
    cases c
    · simp [AllocFlags.contains, AllocFlags.FORBID] at hf
    · rfl
  by_cases hinit : log = none ∧ ini = false
  all_goals
    simp [alloc, hinit, Guard.new, Guard.drop, AllocFlags.insert,
      AllocFlags.remove, AllocFlags.contains, AllocFlags.FORBID,
      AllocFlags.LOG_DISABLED, AllocFlags.LOG_ENABLED, hc]

/-- C10 witness: flags holding both LOG_DISABLED and FORBID. -/
theorem c10_forbid_wins_over_disabled_witness :
    (alloc (fun _ => 0) [] ⟨16, 8⟩ ⟨some [], true, ⟨true, false, true⟩⟩).1 =
      Except.error "Allocation performed when forbidden" :=
  c10_forbid_wins_over_disabled (fun _ => 0) [] ⟨16, 8⟩
    ⟨some [], true, ⟨true, false, true⟩⟩ rfl rfl

/-- C3: when the calling thread's flags do not contain LOG_ENABLED, the
call pushes nothing: the queue contents are unchanged (the only possible
change is the lazy construction of a still-empty queue when none existed
yet). -/
theorem c3_no_event_when_not_enabled (inner : Layout → Nat)
    (frames : List (List Addr)) (layout : Layout) (st : AllocState)
    (h : st.ALLOC_MODE.contains AllocFlags.LOG_ENABLED = false) :
    (alloc inner frames layout st).2.ALLOC_LOG = st.ALLOC_LOG ∨
      (st.ALLOC_LOG = none ∧
        (alloc inner frames layout st).2.ALLOC_LOG = some []) := by
  rcases st with ⟨log, ini, F⟩
  have hb : F.logEnabled = false := by
    rcases F with ⟨a, b, c⟩
    cases b
    · rfl
    · simp [AllocFlags.contains, AllocFlags.LOG_ENABLED] at h
  by_cases hinit : log = none ∧ ini = false
  · right
    refine ⟨hinit.1, ?_⟩
    by_cases hforbid : F.forbidBit = true <;>
      simp [alloc, hinit, Guard.new, Guard.drop, AllocFlags.insert,
        AllocFlags.remove, AllocFlags.contains, AllocFlags.FORBID,
        AllocFlags.LOG_DISABLED, AllocFlags.LOG_ENABLED, hb, hforbid]
  · left
    by_cases hforbid : F.forbidBit = true <;>
      simp [alloc, hinit, Guard.new, Guard.drop, AllocFlags.insert,
        AllocFlags.remove, AllocFlags.contains, AllocFlags.FORBID,
        AllocFlags.LOG_DISABLED, AllocFlags.LOG_ENABLED, hb, hforbid]

/-- C3 witness: a disabled-only thread allocating over a one-event
queue leaves the queue exactly as it was. -/
theorem c3_no_event_when_not_enabled_witness :
    (alloc (fun _ => 0) [[some 5]] ⟨8, 8⟩
        ⟨some [AllocLog.Empty], true, ⟨true, false, false⟩⟩).2.ALLOC_LOG =
        some [AllocLog.Empty] ∨
      (some [AllocLog.Empty] = (none : Option (List AllocLog)) ∧
        (alloc (fun _ => 0) [[some 5]] ⟨8, 8⟩
          ⟨some [AllocLog.Empty], true, ⟨true, false, false⟩⟩).2.ALLOC_LOG =
          some []) :=
  c3_no_event_when_not_enabled (fun _ => 0) [[some 5]] ⟨8, 8⟩
    ⟨some [AllocLog.Empty], true, ⟨true, false, false⟩⟩ rfl

/-- C1: the spec requires that the suppressed-recording scope wrapped
around the recording bookkeeping makes a nested alloc record nothing.
The code violates this: alloc tests only LOG_ENABLED and never consults
LOG_DISABLED, so on a thread whose flags are exactly the nested-
bookkeeping situation — LOG_DISABLED set by the scope, LOG_ENABLED still
set — a (nested) alloc call still pushes an event into the queue. -/
theorem c1_suppression_not_consulted :
    (alloc (fun _ => 0) [] ⟨8, 8⟩
        ⟨some [], true, ⟨true, true, false⟩⟩).2.ALLOC_LOG =
      some [AllocLog.Test ⟨8, 8⟩ []] := by
  simp [alloc, Guard.new, Guard.drop, AllocFlags.insert, AllocFlags.remove,
    AllocFlags.contains, AllocFlags.FORBID, AllocFlags.LOG_DISABLED,
    AllocFlags.LOG_ENABLED, add_log_entry, ALLOC_LOG_SIZE]

/-- contains of a single declared bit reads that bit. -/
theorem contains_single_bit (F : AllocFlags) :
    (F.contains AllocFlags.LOG_DISABLED = F.logDisabled) ∧
      (F.contains AllocFlags.LOG_ENABLED = F.logEnabled) ∧
      (F.contains AllocFlags.FORBID = F.forbidBit) := by
  rcases F with ⟨x, y, z⟩
  simp [AllocFlags.contains, AllocFlags.LOG_DISABLED,
    AllocFlags.LOG_ENABLED, AllocFlags.FORBID]

/-- Inserting a single mode bit is set union with that bit. -/
theorem hasBit_insert_bitFlag (b bb : ModeBit) (F : AllocFlags) :
    (F.insert (bitFlag b)).hasBit bb = (F.hasBit bb || decide (bb = b)) := by
  rcases F with ⟨x, y, z⟩
  cases b <;> cases bb <;> cases x <;> cases y <;> cases z <;> rfl

/-- Removing a single mode bit is set difference with that bit,
whatever the current flags are (non-counting removal). -/
theorem hasBit_remove_bitFlag (b bb : ModeBit) (cur : AllocFlags) :
    (cur.remove (bitFlag b)).hasBit bb = (cur.hasBit bb && !decide (bb = b)) := by
  rcases cur with ⟨x, y, z⟩
  cases b <;> cases bb <;> cases x <;> cases y <;> cases z <;> rfl

/-- C4: a guard's entry unions its bit into the thread flags (all other
bits untouched); its release removes exactly that bit from the current
flags, again leaving other bits untouched; the release runs on every
exit path of a scoped body, normal result or unwinding panic alike, so
the bit is always clear after the scope; and the removal is
non-counting: after nested same-bit guards, the inner release already
clears the bit even though the outer guard is still active. -/
theorem c4_guard_scoped_bits :
    (∀ (b bb : ModeBit) (F : AllocFlags),
      ((Guard.new (bitFlag b) F).2).hasBit bb = (F.hasBit bb || decide (bb = b))) ∧
      (∀ (b bb : ModeBit) (cur : AllocFlags),
        (Guard.drop ⟨bitFlag b⟩ cur).hasBit bb =
          (cur.hasBit bb && !decide (bb = b))) ∧
      (∀ (α : Type) (b : ModeBit)
        (body : AllocFlags → Except String α × AllocFlags) (mode : AllocFlags),
        ((runScoped (bitFlag b) body mode).2).hasBit b = false) ∧
      (∀ (b : ModeBit) (F : AllocFlags),
        (Guard.drop (Guard.new (bitFlag b) (Guard.new (bitFlag b) F).2).1
          (Guard.new (bitFlag b) (Guard.new (bitFlag b) F).2).2).hasBit b =
          false) := by
  refine ⟨?_, ?_, ?_, ?_⟩
  · intro b bb F
    exact hasBit_insert_bitFlag b bb F
  · intro b bb cur
    exact hasBit_remove_bitFlag b bb cur
  · intro α b body mode
    show (Guard.drop ⟨bitFlag b⟩ _).hasBit b = false
    simp [Guard.drop, hasBit_remove_bitFlag]
  · intro b F
    show (Guard.drop ⟨bitFlag b⟩ _).hasBit b = false
    simp [Guard.drop, hasBit_remove_bitFlag]

/-- C9: reallocate and free are pure pass-through: they return the
underlying allocator's result unchanged and leave the whole state — the
event queue included — exactly as it was. -/
theorem c9_realloc_dealloc_passthrough (f : Nat → Layout → Nat → Nat)
    (g : Nat → Layout → Unit) (ptr : Nat) (layout : Layout) (n : Nat)
    (st : AllocState) :
    realloc f ptr layout n st = (f ptr layout n, st) ∧
      dealloc g ptr layout st = (g ptr layout, st) ∧
      (realloc f ptr layout n st).2.ALLOC_LOG = st.ALLOC_LOG ∧
      (dealloc g ptr layout st).2.ALLOC_LOG = st.ALLOC_LOG :=
  ⟨rfl, rfl, rfl, rfl⟩

/-- C8: on an enabled (and not forbidden) thread with room in the queue,
alloc pushes exactly one Trace event whose address list is the
concatenation, in walk order, of each walked frame's resolved symbol
addresses — the order the walk yields frames (oldest-first per the
backtrace interface as the spec reads it) is preserved verbatim in the
event — and then delegates to the underlying allocator. -/
theorem c8_trace_preserves_walk_order (inner : Layout → Nat)
    (frames : List (List Addr)) (layout : Layout) (st : AllocState)
    (q : List AllocLog) (hq : st.ALLOC_LOG = some q)
    (hlen : q.length < ALLOC_LOG_SIZE)
    (he : st.ALLOC_MODE.contains AllocFlags.LOG_ENABLED = true)
    (hf : st.ALLOC_MODE.contains AllocFlags.FORBID = false) :
    (alloc inner frames layout st).2.ALLOC_LOG =
        some (q ++ [AllocLog.Test layout frames.flatten]) ∧
      (alloc inner frames layout st).1 = Except.ok (inner layout) := by
  rcases st with ⟨log, ini, F⟩
  simp only at hq he hf
  subst hq
  have he1 : F.logEnabled = true := by rw [← (contains_single_bit F).2.1]; exact he
  have hf1 : F.forbidBit = false := by rw [← (contains_single_bit F).2.2]; exact hf
  constructor <;>
    simp [alloc, Guard.new, Guard.drop, AllocFlags.insert, AllocFlags.remove,
      AllocFlags.contains, AllocFlags.FORBID, AllocFlags.LOG_DISABLED,
      AllocFlags.LOG_ENABLED, he1, hf1, add_log_entry, hlen]

/-- C8 witness: two walked frames, the first with two resolved symbol
addresses, stay in walk order inside the pushed Trace event. -/
theorem c8_trace_preserves_walk_order_witness :
    (alloc (fun _ => 0) [[some 10, some 11], [some 20]] ⟨32, 8⟩
        ⟨some [AllocLog.Empty], true, ⟨false, true, false⟩⟩).2.ALLOC_LOG =
        some [AllocLog.Empty,
          AllocLog.Test ⟨32, 8⟩ [some 10, some 11, some 20]] ∧
      (alloc (fun _ => 0) [[some 10, some 11], [some 20]] ⟨32, 8⟩
        ⟨some [AllocLog.Empty], true, ⟨false, true, false⟩⟩).1 =
        Except.ok 0 :=
  c8_trace_preserves_walk_order (fun _ => 0) [[some 10, some 11], [some 20]]
    ⟨32, 8⟩ ⟨some [AllocLog.Empty], true, ⟨false, true, false⟩⟩
    [AllocLog.Empty] rfl (by decide) rfl rfl

/-- C6: the queue capacity is the fixed constant 4096, and a push onto a
queue already holding 4096 events fails fatally — both directly in
add_log_entry and on the recording path of alloc, where the failing call
leaves the queue contents exactly as they were (nothing dropped, nothing
evicted). -/
theorem c6_queue_full_fatal (e : AllocLog) (q : List AllocLog)
    (inner : Layout → Nat) (frames : List (List Addr)) (layout : Layout)
    (st : AllocState) (hlen : q.length = ALLOC_LOG_SIZE)
    (hq : st.ALLOC_LOG = some q)
    (he : st.ALLOC_MODE.contains AllocFlags.LOG_ENABLED = true)
    (hf : st.ALLOC_MODE.contains AllocFlags.FORBID = false) :
    ALLOC_LOG_SIZE = 4096 ∧
      add_log_entry e (some q) =
        Except.error "called Result::unwrap on an Err value" ∧
      (alloc inner frames layout st).1 =
        Except.error "called Result::unwrap on an Err value" ∧
      (alloc inner frames layout st).2.ALLOC_LOG = some q := by
  rcases st with ⟨log, ini, F⟩
  simp only at hq he hf
  subst hq
  have he1 : F.logEnabled = true := by rw [← (contains_single_bit F).2.1]; exact he
  have hf1 : F.forbidBit = false := by rw [← (contains_single_bit F).2.2]; exact hf
  have hfull : ¬ q.length < ALLOC_LOG_SIZE := by omega
  refine ⟨rfl, ?_, ?_, ?_⟩ <;>
    simp [alloc, Guard.new, Guard.drop, AllocFlags.insert, AllocFlags.remove,
      AllocFlags.contains, AllocFlags.FORBID, AllocFlags.LOG_DISABLED,
      AllocFlags.LOG_ENABLED, he1, hf1, add_log_entry, hfull]

/-- C6 witness: a queue of exactly 4096 events rejects the 4097th. -/
theorem c6_queue_full_fatal_witness :
    ALLOC_LOG_SIZE = 4096 ∧
      add_log_entry AllocLog.Empty
          (some (List.replicate 4096 AllocLog.Empty)) =
        Except.error "called Result::unwrap on an Err value" ∧
      (alloc (fun _ => 0) [] ⟨8, 8⟩
          ⟨some (List.replicate 4096 AllocLog.Empty), true,
            ⟨false, true, false⟩⟩).1 =
        Except.error "called Result::unwrap on an Err value" ∧
      (alloc (fun _ => 0) [] ⟨8, 8⟩
          ⟨some (List.replicate 4096 AllocLog.Empty), true,
            ⟨false, true, false⟩⟩).2.ALLOC_LOG =
        some (List.replicate 4096 AllocLog.Empty) :=
  c6_queue_full_fatal AllocLog.Empty (List.replicate 4096 AllocLog.Empty)
    (fun _ => 0) [] ⟨8, 8⟩
    ⟨some (List.replicate 4096 AllocLog.Empty), true, ⟨false, true, false⟩⟩
    (List.length_replicate 4096 AllocLog.Empty) rfl rfl rfl

/-- Pushing a sequence of events that fits in the remaining capacity
succeeds and appends them, in order, at the tail of the queue. -/
theorem pushAll_ok (es q : List AllocLog)
    (h : q.length + es.length ≤ ALLOC_LOG_SIZE) :
    pushAll es q = Except.ok (q ++ es) := by
  induction es generalizing q with
  | nil => simp [pushAll]
  | cons e rest ih =>
    have hlt : q.length < ALLOC_LOG_SIZE := by
      simp [List.length_cons] at h; omega
    have step : add_log_entry e (some q) = Except.ok (q ++ [e]) := by
      simp [add_log_entry, hlt]
    have hrec := ih (q ++ [e]) (by simp [List.length_cons] at h ⊢; omega)
    simp [pushAll, step, hrec]

/-- The dump loop processes the queue front to back: its output is the
concatenation of the per-entry outputs in queue order. -/
theorem dumpLoop_eq_flatten (resolve : Nat → List (Option String))
    (es : List AllocLog) :
    dumpLoop resolve es = (es.map (dumpEntry resolve)).flatten := by
  induction es with
  | nil => rfl
  | cons e rest ih => simp [dumpLoop, ih]

/-- C5: single producer, dump sole consumer. Pushing a fitting sequence
of events onto the fresh queue stores them in push order; dump then
drains the queue, emitting the per-event output in exactly that order
(oldest first), and on return the queue is empty. -/
theorem c5_dump_fifo (resolve : Nat → List (Option String))
    (es : List AllocLog) (st : AllocState)
    (hlen : es.length ≤ ALLOC_LOG_SIZE) (hq : st.ALLOC_LOG = some es) :
    pushAll es [] = Except.ok es ∧
      (dump_alloc resolve st).1 =
        Except.ok ((es.map (dumpEntry resolve)).flatten) ∧
      (dump_alloc resolve st).2.ALLOC_LOG = some [] := by
  rcases st with ⟨log, ini, F⟩
  simp only at hq
  subst hq
  refine ⟨?_, ?_, ?_⟩
  · have := pushAll_ok es [] (by simpa using hlen)
    simpa using this
  · simp [dump_alloc, dumpLoop_eq_flatten]
  · simp [dump_alloc]

/-- C5 witness: two pushed events (one Trace, one Empty) dump as one
line for the Trace followed by nothing for the Empty, queue left empty. -/
theorem c5_dump_fifo_witness :
    pushAll [AllocLog.Test ⟨8, 8⟩ [some 1], AllocLog.Empty] [] =
        Except.ok [AllocLog.Test ⟨8, 8⟩ [some 1], AllocLog.Empty] ∧
      (dump_alloc (fun _ => [some "main"])
          ⟨some [AllocLog.Test ⟨8, 8⟩ [some 1], AllocLog.Empty], true,
            ⟨false, false, false⟩⟩).1 =
        Except.ok (([AllocLog.Test ⟨8, 8⟩ [some 1], AllocLog.Empty].map
          (dumpEntry (fun _ => [some "main"]))).flatten) ∧
      (dump_alloc (fun _ => [some "main"])
          ⟨some [AllocLog.Test ⟨8, 8⟩ [some 1], AllocLog.Empty], true,
            ⟨false, false, false⟩⟩).2.ALLOC_LOG = some [] :=
  c5_dump_fifo (fun _ => [some "main"])
    [AllocLog.Test ⟨8, 8⟩ [some 1], AllocLog.Empty]
    ⟨some [AllocLog.Test ⟨8, 8⟩ [some 1], AllocLog.Empty], true,
      ⟨false, false, false⟩⟩ (by decide) rfl

/-- Every name in the filtered symbol list of one Trace event passes the
three-substring filter. -/
theorem mem_symbolNames_filtered (resolve : Nat → List (Option String))
    (bt : List Addr) (s : String) (h : s ∈ symbolNames resolve bt) :
    strContains s "backtrace" = false ∧ strContains s "GlobalAlloc" = false ∧
      strContains s "insight" = false := by
  rw [symbolNames, List.mem_flatMap] at h
  obtain ⟨addr, _, hmem⟩ := h
  match addr with
  | none => simp at hmem
  | some a =>
    rw [List.mem_flatMap] at hmem
    obtain ⟨nm, _, hmem2⟩ := hmem
    match nm with
    | none => simp at hmem2
    | some t =>
      simp at hmem2
      obtain ⟨hcond, rfl⟩ := hmem2
      exact ⟨hcond.1.1, hcond.1.2, hcond.2⟩

/-- C7: dump never fails on a constructed queue, whatever the resolver
reports; every symbol name in its output contains none of the three
filter substrings; and null addresses, addresses that resolve to
nothing, and nameless symbols contribute nothing to a line. -/
theorem c7_dump_filter (resolve : Nat → List (Option String))
    (st : AllocState) (q : List AllocLog) (hq : st.ALLOC_LOG = some q) :
    (∃ lines, (dump_alloc resolve st).1 = Except.ok lines) ∧
      (∀ lines, (dump_alloc resolve st).1 = Except.ok lines →
        ∀ l ∈ lines, ∀ s ∈ l.2,
          strContains s "backtrace" = false ∧
            strContains s "GlobalAlloc" = false ∧
            strContains s "insight" = false) ∧
      (∀ bt, symbolNames resolve (none :: bt) = symbolNames resolve bt) ∧
      (∀ a bt, resolve a = [] →
        symbolNames resolve (some a :: bt) = symbolNames resolve bt) ∧
      (∀ a bt, (∀ nm ∈ resolve a, nm = none) →
        symbolNames resolve (some a :: bt) = symbolNames resolve bt) := by
  rcases st with ⟨log, ini, F⟩
  simp only at hq
  subst hq
  refine ⟨⟨dumpLoop resolve q, by simp [dump_alloc]⟩, ?_, ?_, ?_, ?_⟩
  · intro lines hlines l hl s hs
    have hlines2 : lines = dumpLoop resolve q := by
      simp [dump_alloc] at hlines
      exact hlines.symm
    subst hlines2
    rw [dumpLoop_eq_flatten, List.mem_flatten] at hl
    obtain ⟨out, hout, hlout⟩ := hl
    rw [List.mem_map] at hout
    obtain ⟨entry, _, hentry⟩ := hout
    subst hentry
    match entry with
    | AllocLog.Alloc _ => simp [dumpEntry] at hlout
    | AllocLog.Empty => simp [dumpEntry] at hlout
    | AllocLog.Test layout bt =>
      simp [dumpEntry] at hlout
      subst hlout
      exact mem_symbolNames_filtered resolve bt s hs
  · intro bt
    simp [symbolNames]
  · intro a bt hres
    simp [symbolNames, hres]
  · intro a bt hres
    simp only [symbolNames, List.flatMap_cons]
    have hzero : ((resolve a).flatMap fun nm =>
        match nm with
        | none => ([] : List String)
        | some s =>
          if !strContains s "backtrace" && !strContains s "GlobalAlloc" &&
              !strContains s "insight" then [s] else []) = [] := by
      rw [List.flatMap_eq_nil_iff]
      intro nm hnm
      rw [hres nm hnm]
    rw [hzero, List.nil_append]

/-- C7 witness: a resolver reporting a surviving name, a filtered name
and a nameless symbol, over a trace with one null and one resolvable
address. -/
theorem c7_dump_filter_witness :
    (∃ lines, (dump_alloc (fun _ => [some "alpha", some "insight::foo", none])
        ⟨some [AllocLog.Test ⟨8, 8⟩ [some 1, none]], true,
          ⟨false, false, false⟩⟩).1 = Except.ok lines) ∧
      (∀ lines, (dump_alloc (fun _ => [some "alpha", some "insight::foo", none])
          ⟨some [AllocLog.Test ⟨8, 8⟩ [some 1, none]], true,
            ⟨false, false, false⟩⟩).1 = Except.ok lines →
        ∀ l ∈ lines, ∀ s ∈ l.2,
          strContains s "backtrace" = false ∧
            strContains s "GlobalAlloc" = false ∧
            strContains s "insight" = false) ∧
      (∀ bt, symbolNames (fun _ => [some "alpha", some "insight::foo", none])
          (none :: bt) =
        symbolNames (fun _ => [some "alpha", some "insight::foo", none]) bt) ∧
      (∀ a bt, (fun _ => [some "alpha", some "insight::foo", none]) a = [] →
        symbolNames (fun _ => [some "alpha", some "insight::foo", none])
            (some a :: bt) =
          symbolNames (fun _ => [some "alpha", some "insight::foo", none]) bt) ∧
      (∀ a bt,
        (∀ nm ∈ (fun _ => [some "alpha", some "insight::foo", none]) a,
          nm = none) →
        symbolNames (fun _ => [some "alpha", some "insight::foo", none])
            (some a :: bt) =
          symbolNames (fun _ => [some "alpha", some "insight::foo", none]) bt) :=
  c7_dump_filter (fun _ => [some "alpha", some "insight::foo", none])
    ⟨some [AllocLog.Test ⟨8, 8⟩ [some 1, none]], true, ⟨false, false, false⟩⟩
    [AllocLog.Test ⟨8, 8⟩ [some 1, none]] rfl

end Insight
